import Mathlib

/-!
Verification of the RunLineJS overlay compositor and telemetry buffer.

The definitions below are a shallow embedding of `src/overlay.ts` (class
`RaceOverlay`).  JavaScript numbers are modelled as exact rationals (ℚ);
lane counts and lane indices, which the code only compares and multiplies
as whole numbers, are modelled as ℤ.  Angles are recorded in units of π
(so `-(1/2)` denotes the rotation `-Math.PI / 2` from the source).

Three.js objects are modelled by value: every mesh ever created lives in a
`heap : List Mesh`, and object references (`anim.mesh`,
`rankingsGroup.children`) are heap indices.  This preserves the reference
semantics of the source: a mesh removed from `rankingsGroup` still exists
and an animation task holding its index can still write to it.
-/

namespace RunLineJS

/-- Source `'flat' | 'upright'` union type. -/
inductive Orientation
  | flat
  | upright
deriving DecidableEq

/-- Source `'classic' | 'modern' | 'neon'` union type. -/
inductive CardStyle
  | classic
  | modern
  | neon
deriving DecidableEq

/-- Source `'static' | 'fade' | 'slide' | 'scale'` union type. -/
inductive RevealEffect
  | static
  | fade
  | slide
  | scale
deriving DecidableEq

/-- A lane separator line from `createLanes`: a segment from
`(-trackLength/2, 0, z)` to `(trackLength/2, 0, z)`. -/
structure LaneLine where
  x1 : ℚ
  x2 : ℚ
  z : ℚ
deriving DecidableEq

/-- A `THREE.Mesh` as used by the overlay: a plane with a canvas texture.
`laneIndex` models `userData.laneIndex` (always a number: `showRank` sets it
on every card it adds).  `rotX`/`rotY`/`rotZ` are in units of π.
`opacity` is the material opacity (three.js default 1).  `geomW`/`geomH`
are the `PlaneGeometry` dimensions.  `disposed` records that
geometry/material were released. -/
structure Mesh where
  laneIndex : ℤ
  posX : ℚ
  posY : ℚ
  posZ : ℚ
  rotX : ℚ
  rotY : ℚ
  rotZ : ℚ
  scaleX : ℚ
  scaleY : ℚ
  scaleZ : ℚ
  opacity : ℚ
  geomW : ℚ
  geomH : ℚ
  rank : ℤ
  athleteName : String
  time : String
  image : Option String
  disposed : Bool
deriving DecidableEq

/-- An entry of the source array
`animations: { mesh, type, startTime, duration, startProp, endProp }[]`.
`meshId` is the heap index of the referenced mesh. -/
structure AnimTask where
  meshId : ℕ
  type : String
  startTime : ℚ
  duration : ℚ
  startProp : ℚ
  endProp : ℚ
deriving DecidableEq

/-- The mutable state of class `RaceOverlay`.  `heap` holds every mesh ever
created; `rankings` holds the heap indices of `rankingsGroup.children`, in
insertion order. -/
structure OverlayState where
  laneCount : ℤ
  laneWidth : ℚ
  trackLength : ℚ
  cardOrientation : Orientation
  cardStyle : CardStyle
  revealEffect : RevealEffect
  cardOffsetX : ℚ
  lanes : List LaneLine
  heap : List Mesh
  rankings : List ℕ
  animations : List AnimTask
deriving DecidableEq

/-- Replace the element at index `i` by `f` applied to it (models a write
through an object reference; out-of-range indices leave the list alone). -/
def modifyAt (l : List Mesh) (i : ℕ) (f : Mesh → Mesh) : List Mesh :=
  match l, i with
  | [], _ => []
  | x :: xs, 0 => f x :: xs
  | x :: xs, Nat.succ n => x :: modifyAt xs n f

/-- Apply the per-mesh mutation `f` to every heap index in `ids`
(models `this.rankingsGroup.children.forEach(...)`). -/
def applyAll (f : Mesh → Mesh) (h : List Mesh) (ids : List ℕ) : List Mesh :=
  ids.foldl (fun acc i => modifyAt acc i f) h

/-- Source: `const progress = Math.min(elapsed / anim.duration, 1)` with
`elapsed = now - anim.startTime`. -/
def progressOf (a : AnimTask) (now : ℚ) : ℚ :=
  min ((now - a.startTime) / a.duration) 1

/-- Source: `const eased = 1 - Math.pow(1 - progress, 3)`. -/
def easedOf (p : ℚ) : ℚ :=
  1 - (1 - p) ^ 3

/-- The body of the per-task branch of `update`: write the eased value onto
the property selected by the task kind (`opacity` for fade, `position.y`
for slide, uniform scale for scale; any other kind writes nothing). -/
def applyTask (m : Mesh) (a : AnimTask) (eased : ℚ) : Mesh :=
  if a.type = "fade" then
    { m with opacity := a.startProp + (a.endProp - a.startProp) * eased }
  else if a.type = "slide" then
    { m with posY := a.startProp + (a.endProp - a.startProp) * eased }
  else if a.type = "scale" then
    let s := a.startProp + (a.endProp - a.startProp) * eased
    { m with scaleX := s, scaleY := s, scaleZ := s }
  else m

/-- The animation loop of `update`: the source iterates
`for (let i = this.animations.length - 1; i >= 0; i--)`, so the most
recently inserted task is processed first and index 0 last; a task is
spliced out after its write when `progress >= 1`.  Returns the heap after
all writes together with the surviving task list (original order). -/
def updateAnims (heap : List Mesh) (anims : List AnimTask) (now : ℚ) :
    List Mesh × List AnimTask :=
  match anims with
  | [] => (heap, [])
  | a :: rest =>
      let r := updateAnims heap rest now
      let progress := progressOf a now
      let heap2 := modifyAt r.1 a.meshId (fun m => applyTask m a (easedOf progress))
      if 1 ≤ progress then (heap2, r.2) else (heap2, a :: r.2)

/-- Source `update()`, with the frame clock `performance.now()` passed in
explicitly as `now`. -/
def update (s : OverlayState) (now : ℚ) : OverlayState :=
  let r := updateAnims s.heap s.animations now
  { s with heap := r.1, animations := r.2 }

/-- Source `createLanes()`: one line for each `i` in `0 ≤ i ≤ laneCount` at
`z = i*laneWidth - laneCount*laneWidth/2`, spanning `±trackLength/2`. -/
def createLanes (laneCount : ℤ) (laneWidth trackLength : ℚ) : List LaneLine :=
  (List.range (laneCount + 1).toNat).map fun i =>
    { x1 := -trackLength / 2
      x2 := trackLength / 2
      z := (i : ℚ) * laneWidth - (laneCount : ℚ) * laneWidth / 2 }

/-- Source `updateCardPositions()`: every card in `rankingsGroup` is moved to
`x = cardOffsetX`, `y = 0.02`,
`z = laneIndex*laneWidth - laneCount*laneWidth/2 + laneWidth/2`. -/
def updateCardPositions (s : OverlayState) : OverlayState :=
  { s with heap := applyAll (fun m =>
      { m with
        posX := 0 + s.cardOffsetX
        posY := 1/50
        posZ := (m.laneIndex : ℚ) * s.laneWidth
          - (s.laneCount : ℚ) * s.laneWidth / 2 + s.laneWidth / 2 }) s.heap s.rankings }

/-- Source `configureTrack(count, width, length)`: store the new
configuration, rebuild the lane markers, replace every ranking card's plane
geometry by `(laneSpan*4) × laneSpan` with `laneSpan = max(0.5, width - 0.3)`,
then reposition every card. -/
def configureTrack (s : OverlayState) (count : ℤ) (width length : ℚ) : OverlayState :=
  let s1 := { s with
    laneCount := count
    laneWidth := width
    trackLength := length
    lanes := createLanes count width length }
  let laneSpan := max (1/2) (width - 3/10)
  let trackSpan := laneSpan * 4
  let s2 := { s1 with heap := applyAll (fun m =>
      { m with geomW := trackSpan, geomH := laneSpan }) s1.heap s1.rankings }
  updateCardPositions s2

/-- Source `setCardStyle(style)`. -/
def setCardStyle (s : OverlayState) (style : CardStyle) : OverlayState :=
  { s with cardStyle := style }

/-- Source `setRevealEffect(effect)`. -/
def setRevealEffect (s : OverlayState) (effect : RevealEffect) : OverlayState :=
  { s with revealEffect := effect }

/-- Source `setCardOffset(x)`: store the offset and reposition every card. -/
def setCardOffset (s : OverlayState) (x : ℚ) : OverlayState :=
  updateCardPositions { s with cardOffsetX := x }

/-- Source `setCardOrientation(orientation)`: store it and re-orient every
existing card: flat sets `rotation.x = -π/2, rotation.y = 0`; upright sets
`rotation.x = 0, rotation.y = -π/2`. -/
def setCardOrientation (s : OverlayState) (o : Orientation) : OverlayState :=
  let s1 := { s with cardOrientation := o }
  { s1 with heap := applyAll (fun m =>
      match o with
      | .flat => { m with rotX := -(1/2), rotY := 0 }
      | .upright => { m with rotX := 0, rotY := -(1/2) }) s1.heap s1.rankings }

/-- Source `createLabel(rank, name, time, imageBase64)`: builds the textured
plane of size `(laneSpan*4) × laneSpan`, `laneSpan = max(0.5, laneWidth - 0.3)`,
with default material opacity 1 and default scale 1.  Orientation: flat sets
`rotation.x = -π/2`; upright calls `rotation.set(0, 0, 0)`.  The
`userData.laneIndex` is assigned afterwards by `showRank`; it is initialised
to 0 here. -/
def createLabel (s : OverlayState) (rank : ℤ) (name time : String)
    (image : Option String) : Mesh :=
  let laneSpan := max (1/2) (s.laneWidth - 3/10)
  let trackSpan := laneSpan * 4
  { laneIndex := 0
    posX := 0, posY := 0, posZ := 0
    rotX := if s.cardOrientation = .flat then -(1/2) else 0
    rotY := 0, rotZ := 0
    scaleX := 1, scaleY := 1, scaleZ := 1
    opacity := 1
    geomW := trackSpan, geomH := laneSpan
    rank := rank, athleteName := name, time := time, image := image
    disposed := false }

/-- Source `showRank(laneIndex, rank, athleteName, time, imageBase64)` with
the clock `performance.now()` passed in as `now`.  Out-of-range lane
indices return the state unchanged.  Otherwise the new card is placed at
`(cardOffsetX, 0.02, baseZ)`; under a non-static reveal effect the card is
seeded at the animation start value and one task is appended. -/
def showRank (s : OverlayState) (now : ℚ) (laneIndex rank : ℤ)
    (athleteName time : String) (image : Option String) : OverlayState :=
  if laneIndex < 0 ∨ s.laneCount ≤ laneIndex then s
  else
    let baseZ := (laneIndex : ℚ) * s.laneWidth
      - (s.laneCount : ℚ) * s.laneWidth / 2 + s.laneWidth / 2
    let targetY : ℚ := 1/50
    let label := { createLabel s rank athleteName time image with
      posX := 0 + s.cardOffsetX, posY := targetY, posZ := baseZ
      laneIndex := laneIndex }
    let id := s.heap.length
    let r : Mesh × List AnimTask :=
      match s.revealEffect with
      | .static => (label, s.animations)
      | .fade =>
          ({ label with opacity := 0 },
           s.animations ++ [⟨id, "fade", now, 1000, 0, 1⟩])
      | .slide =>
          ({ label with posY := -5 },
           s.animations ++ [⟨id, "slide", now, 800, -5, targetY⟩])
      | .scale =>
          ({ label with scaleX := 0, scaleY := 0, scaleZ := 0 },
           s.animations ++ [⟨id, "scale", now, 600, 0, 1⟩])
    { s with heap := s.heap ++ [r.1], rankings := s.rankings ++ [id],
             animations := r.2 }

/-- Source `clearRankings()`: remove every child of `rankingsGroup` and
dispose its geometry/material.  The `animations` array is not touched. -/
def clearRankings (s : OverlayState) : OverlayState :=
  { s with
    rankings := []
    heap := applyAll (fun m => { m with disposed := true }) s.heap s.rankings }

/-- The state set up by the `RaceOverlay` constructor: 8 lanes of width
1.22 m, track length 100, flat classic static cards, no offset, no cards,
no animations. -/
def initialState : OverlayState :=
  { laneCount := 8
    laneWidth := 61/50
    trackLength := 100
    cardOrientation := .flat
    cardStyle := .classic
    revealEffect := .static
    cardOffsetX := 0
    lanes := createLanes 8 (61/50) 100
    heap := []
    rankings := []
    animations := [] }

/-! ## Telemetry buffer

The telemetry buffer (spec §4.1) is part of this repository's core but its
source file is not among the files under review, so it is modelled from the
spec. -/

/-- Modelled from the spec: a `TelemetrySample` is
`{x, y, z?: optional, timestampMs, metadata: open map}`. -/
structure TelemetrySample where
  x : ℚ
  y : ℚ
  z : Option ℚ
  timestampMs : ℚ
  metadata : List (String × String)
deriving DecidableEq

/-- Modelled from the spec: a `TelemetryBuffer` is an ordered sequence of
samples bounded by `maxSize` (default 1000). -/
structure TelemetryBuffer where
  maxSize : ℕ
  samples : List TelemetrySample
deriving DecidableEq

/-- Ordering of samples by timestamp. -/
def tsle (a b : TelemetrySample) : Prop :=
  a.timestampMs ≤ b.timestampMs

instance : DecidableRel tsle := fun a b =>
  inferInstanceAs (Decidable (a.timestampMs ≤ b.timestampMs))

instance : IsTotal TelemetrySample tsle :=
  ⟨fun a b => le_total a.timestampMs b.timestampMs⟩

instance : IsTrans TelemetrySample tsle :=
  ⟨fun _ _ _ hab hbc => le_trans hab hbc⟩

/-- Modelled from the spec (§4.1 `push`, insertion step): if the new
sample's timestamp is `≥` the buffer's current last timestamp, append;
otherwise append then fully re-sort ascending by timestamp. -/
def insertSample (l : List TelemetrySample) (s : TelemetrySample) : List TelemetrySample :=
  match l.getLast? with
  | none => l ++ [s]
  | some last => if last.timestampMs ≤ s.timestampMs then l ++ [s]
                 else (l ++ [s]).insertionSort tsle

/-- Modelled from the spec (§4.1 `push`, eviction step): after insertion,
if the length exceeds `maxSize`, evict the single oldest
(lowest-timestamp) sample — the front of the ascending list. -/
def TelemetryBuffer.push (b : TelemetryBuffer) (s : TelemetrySample) : TelemetryBuffer :=
  let arr := insertSample b.samples s
  if b.maxSize < arr.length then { b with samples := arr.drop 1 }
  else { b with samples := arr }

/-- A buffer as created: empty, with the given bound. -/
def emptyBuffer (maxSize : ℕ) : TelemetryBuffer :=
  ⟨maxSize, []⟩

/-- A sequence of `push` calls. -/
def pushAll (b : TelemetryBuffer) (ss : List TelemetrySample) : TelemetryBuffer :=
  ss.foldl TelemetryBuffer.push b

/-- The spec's ordering invariant: samples non-decreasing by `timestampMs`. -/
def TsSorted (l : List TelemetrySample) : Prop :=
  l.Pairwise tsle

instance (l : List TelemetrySample) : Decidable (TsSorted l) :=
  inferInstanceAs (Decidable (l.Pairwise tsle))

/-! ## Derived views of the compositor state -/

/-- The ranking cards currently in `rankingsGroup`, as meshes. -/
def cardsOf (s : OverlayState) : List Mesh :=
  s.rankings.filterMap fun id => s.heap[id]?

/-- The spec's `RankCard` range invariant: every placed card's lane index
lies in `[0, laneCount)` of the current configuration. -/
def laneInv (s : OverlayState) : Prop :=
  ∀ m ∈ cardsOf s, 0 ≤ m.laneIndex ∧ m.laneIndex < s.laneCount

instance (s : OverlayState) : Decidable (laneInv s) :=
  inferInstanceAs (Decidable (∀ m ∈ cardsOf s, _ ∧ _))

/-! ## Concrete fixtures used to evaluate the model on small inputs -/

/-- A plain mesh used as an animation target in concrete evaluations. -/
def mesh0 : Mesh :=
  ⟨0, 0, 0, 0, 0, 0, 0, 1, 1, 1, 1, 4, 1, 1, "A", "9.58", none, false⟩

/-- A fade task `0 → 1` over 1000 ms starting at 0, targeting heap index 0. -/
def fadeTask1 : AnimTask := ⟨0, "fade", 0, 1000, 0, 1⟩

/-- A second fade task on the same node, `0 → 1/2` over 1000 ms. -/
def fadeTask2 : AnimTask := ⟨0, "fade", 0, 1000, 0, 1/2⟩

/-- Fade reveal, one card shown and then cleared while its task is live. -/
def c1State : OverlayState :=
  clearRankings (showRank (setRevealEffect initialState .fade) 0 0 1 "A" "9.58" none)

/-- One card in lane 3 of the default 8-lane track. -/
def c2Base : OverlayState := showRank initialState 0 3 1 "A" "9.58" none

/-- The lane-3 card of `c2Base` after `configureTrack 6 2 50`:
`laneSpan = max(0.5, 2-0.3) = 17/10`, length `34/5`,
`z = 3*2 - 6*2/2 + 2/2 = 1`. -/
def card2 : Mesh :=
  ⟨3, 0, 1/50, 1, -(1/2), 0, 0, 1, 1, 1, 1, 34/5, 17/10, 1, "A", "9.58", none, false⟩

/-- One card placed flat, then `setCardOrientation upright`, then a second
card placed while the stored orientation is upright. -/
def c4State : OverlayState :=
  showRank (setCardOrientation (showRank initialState 0 0 1 "A" "9.58" none) .upright)
    0 1 2 "B" "9.60" none

/-- Fade reveal stored for future showRank calls. -/
def c7State : OverlayState := setRevealEffect initialState .fade

/-- A card in lane 5 of the 8-lane track, then the track is shrunk to
2 lanes. -/
def c8State : OverlayState :=
  configureTrack (showRank initialState 0 5 1 "A" "9.58" none) 2 1 50

/-- Telemetry samples with timestamps 5, 6, 1 and 7 ms. -/
def sampleA : TelemetrySample := ⟨0, 0, none, 5, []⟩

/-- See `sampleA`. -/
def sampleB : TelemetrySample := ⟨1, 0, none, 6, []⟩

/-- See `sampleA`. -/
def sampleC : TelemetrySample := ⟨2, 0, none, 1, []⟩

/-- See `sampleA`. -/
def sampleD : TelemetrySample := ⟨3, 0, none, 7, []⟩

/-! ## Helper lemmas about heap writes -/

theorem modifyAt_getElem_self (l : List Mesh) (i : ℕ) (f : Mesh → Mesh) :
    (modifyAt l i f)[i]? = (l[i]?).map f := by
  induction l generalizing i with
  | nil => simp [modifyAt]
  | cons x xs ih =>
      cases i with
      | zero => simp [modifyAt]
      | succ n => simpa [modifyAt] using ih n

theorem modifyAt_getElem_ne (l : List Mesh) (i j : ℕ) (f : Mesh → Mesh)
    (h : i ≠ j) : (modifyAt l i f)[j]? = l[j]? := by
  induction l generalizing i j with
  | nil => simp [modifyAt]
  | cons x xs ih =>
      cases i with
      | zero =>
          cases j with
          | zero => exact absurd rfl h
          | succ k => simp [modifyAt]
      | succ n =>
          cases j with
          | zero => simp [modifyAt]
          | succ k => simpa [modifyAt] using ih n k (fun he => h (by rw [he]))

theorem modifyAt_length (l : List Mesh) (i : ℕ) (f : Mesh → Mesh) :
    (modifyAt l i f).length = l.length := by
  induction l generalizing i with
  | nil => rfl
  | cons x xs ih =>
      cases i with
      | zero => rfl
      | succ n => simpa [modifyAt] using ih n

theorem applyAll_nil (f : Mesh → Mesh) (h : List Mesh) : applyAll f h [] = h := rfl

theorem applyAll_cons (f : Mesh → Mesh) (h : List Mesh) (i : ℕ) (t : List ℕ) :
    applyAll f h (i :: t) = applyAll f (modifyAt h i f) t := rfl

theorem applyAll_length (f : Mesh → Mesh) (h : List Mesh) (ids : List ℕ) :
    (applyAll f h ids).length = h.length := by
  induction ids generalizing h with
  | nil => rfl
  | cons i t ih => rw [applyAll_cons, ih, modifyAt_length]

theorem applyAll_getElem_not_mem (f : Mesh → Mesh) (h : List Mesh) (ids : List ℕ)
    (j : ℕ) (hj : j ∉ ids) : (applyAll f h ids)[j]? = h[j]? := by
  induction ids generalizing h with
  | nil => rfl
  | cons i t ih =>
      rw [applyAll_cons, ih _ (fun hm => hj (List.mem_cons_of_mem _ hm)),
        modifyAt_getElem_ne _ _ _ _ (fun he => hj (by rw [← he]; exact List.mem_cons_self i t))]

/-- Writes elsewhere or by a property-preserving function keep a pointwise
property of the mesh at index `j`. -/
theorem applyAll_getElem_pres (f : Mesh → Mesh) (P : Mesh → Prop)
    (hf : ∀ m, P m → P (f m)) (h : List Mesh) (ids : List ℕ) (j : ℕ)
    (h0 : ∀ m, h[j]? = some m → P m) :
    ∀ m, (applyAll f h ids)[j]? = some m → P m := by
  induction ids generalizing h with
  | nil => exact h0
  | cons i t ih =>
      rw [applyAll_cons]
      refine ih (modifyAt h i f) ?_
      intro m hm
      by_cases hij : i = j
      · subst hij
        rw [modifyAt_getElem_self] at hm
        cases hh : h[i]? with
        | none => rw [hh] at hm; cases hm
        | some m0 =>
            rw [hh] at hm
            cases hm
            exact hf m0 (h0 m0 hh)
      · rw [modifyAt_getElem_ne _ _ _ _ hij] at hm
        exact h0 m hm

/-- If `j` is among the written indices and `f` always establishes `P`,
the mesh at `j` afterwards satisfies `P`. -/
theorem applyAll_getElem_estab (f : Mesh → Mesh) (P : Mesh → Prop)
    (hf : ∀ m, P (f m)) (h : List Mesh) (ids : List ℕ) (j : ℕ) (hj : j ∈ ids) :
    ∀ m, (applyAll f h ids)[j]? = some m → P m := by
  induction ids generalizing h with
  | nil => cases hj
  | cons i t ih =>
      rw [applyAll_cons]
      by_cases hjt : j ∈ t
      · exact ih _ hjt
      · have hij : i = j := by
          rcases List.mem_cons.mp hj with he | hm
          · exact he.symm
          · exact absurd hm hjt
        subst hij
        intro m hm
        rw [applyAll_getElem_not_mem _ _ _ _ hjt, modifyAt_getElem_self] at hm
        cases hh : h[i]? with
        | none => rw [hh] at hm; cases hm
        | some m0 =>
            rw [hh] at hm
            cases hm
            exact hf m0

/-! ## Helper lemmas about the animation loop -/

theorem updateAnims_fst_cons (heap : List Mesh) (a : AnimTask)
    (rest : List AnimTask) (now : ℚ) :
    (updateAnims heap (a :: rest) now).1
      = modifyAt (updateAnims heap rest now).1 a.meshId
          (fun m => applyTask m a (easedOf (progressOf a now))) := by
  simp only [updateAnims]
  split <;> rfl

/-- The surviving tasks after an advance are exactly the unfinished ones,
in their original order. -/
theorem updateAnims_snd (heap : List Mesh) (anims : List AnimTask) (now : ℚ) :
    (updateAnims heap anims now).2
      = anims.filter fun a => decide (progressOf a now < 1) := by
  induction anims with
  | nil => rfl
  | cons a rest ih =>
      simp only [updateAnims, List.filter_cons]
      by_cases h1 : 1 ≤ progressOf a now
      · rw [if_pos h1]
        simp [not_lt.mpr h1, ih]
      · rw [if_neg h1]
        simp [lt_of_not_le h1, ih]

/-- The animation loop only rewrites meshes through `applyTask`, so any
property preserved by `applyTask` is preserved pointwise. -/
theorem updateAnims_fst_pres (P : Mesh → Prop)
    (hP : ∀ m a e, P m → P (applyTask m a e))
    (heap : List Mesh) (anims : List AnimTask) (now : ℚ) (j : ℕ)
    (h0 : ∀ m, heap[j]? = some m → P m) :
    ∀ m, (updateAnims heap anims now).1[j]? = some m → P m := by
  induction anims with
  | nil => exact h0
  | cons a rest ih =>
      intro m hm
      rw [updateAnims_fst_cons] at hm
      by_cases hij : a.meshId = j
      · subst hij
        rw [modifyAt_getElem_self] at hm
        cases hh : (updateAnims heap rest now).1[a.meshId]? with
        | none => rw [hh] at hm; cases hm
        | some m0 =>
            rw [hh] at hm
            cases hm
            exact hP m0 _ _ (ih m0 hh)
      · rw [modifyAt_getElem_ne _ _ _ _ hij] at hm
        exact ih m hm

theorem updateAnims_length (heap : List Mesh) (anims : List AnimTask) (now : ℚ) :
    (updateAnims heap anims now).1.length = heap.length := by
  induction anims with
  | nil => rfl
  | cons a rest ih => rw [updateAnims_fst_cons, modifyAt_length, ih]

/-! ## Helper lemmas about the telemetry buffer -/

theorem tsle_refl (a : TelemetrySample) : tsle a a := le_refl _

theorem tsle_trans {a b c : TelemetrySample} (h1 : tsle a b) (h2 : tsle b c) :
    tsle a c := le_trans h1 h2

theorem tsle_of_mem_getLast :
    ∀ (l : List TelemetrySample) (a x : TelemetrySample),
      TsSorted l → a ∈ l → l.getLast? = some x → tsle a x := by
  intro l
  induction l with
  | nil => intro a x _ ha _; cases ha
  | cons b t ih =>
      intro a x hs ha hx
      cases t with
      | nil =>
          have hab : a = b := by simpa using ha
          have hxb : x = b := by simpa using hx.symm
          rw [hab, hxb]
          exact tsle_refl b
      | cons c t2 =>
          rw [List.getLast?_cons_cons] at hx
          rcases List.mem_cons.mp ha with rfl | hmem
          · exact List.rel_of_pairwise_cons hs (List.mem_of_getLast?_eq_some hx)
          · exact ih a x (List.Pairwise.of_cons hs) hmem hx

theorem tsSorted_append_last (l : List TelemetrySample) (s : TelemetrySample)
    (hs : TsSorted l) (hl : ∀ x, l.getLast? = some x → tsle x s) :
    TsSorted (l ++ [s]) := by
  refine List.pairwise_append.mpr ⟨hs, List.pairwise_singleton _ _, ?_⟩
  intro a ha b hb
  rcases List.mem_singleton.mp hb with rfl
  cases hll : l.getLast? with
  | none =>
      rw [List.getLast?_eq_none_iff] at hll
      subst hll
      cases ha
  | some x => exact tsle_trans (tsle_of_mem_getLast l a x hs ha hll) (hl x hll)

theorem insertSample_cases (l : List TelemetrySample) (s : TelemetrySample) :
    insertSample l s = l ++ [s]
      ∨ insertSample l s = (l ++ [s]).insertionSort tsle := by
  unfold insertSample
  cases hl : l.getLast? with
  | none => exact Or.inl rfl
  | some last =>
      dsimp only
      by_cases hc : last.timestampMs ≤ s.timestampMs
      · rw [if_pos hc]; exact Or.inl rfl
      · rw [if_neg hc]; exact Or.inr rfl

theorem insertSample_perm (l : List TelemetrySample) (s : TelemetrySample) :
    (insertSample l s).Perm (l ++ [s]) := by
  rcases insertSample_cases l s with h | h
  · rw [h]
  · rw [h]
    exact List.perm_insertionSort tsle _

theorem insertSample_length (l : List TelemetrySample) (s : TelemetrySample) :
    (insertSample l s).length = l.length + 1 := by
  have h := (insertSample_perm l s).length_eq
  simpa using h

theorem insertSample_sorted (l : List TelemetrySample) (s : TelemetrySample)
    (hs : TsSorted l) : TsSorted (insertSample l s) := by
  unfold insertSample
  cases hl : l.getLast? with
  | none =>
      rw [List.getLast?_eq_none_iff] at hl
      subst hl
      exact List.pairwise_singleton _ _
  | some last =>
      dsimp only
      by_cases hc : last.timestampMs ≤ s.timestampMs
      · rw [if_pos hc]
        refine tsSorted_append_last l s hs ?_
        intro x hx
        rw [hl] at hx
        cases hx
        exact hc
      · rw [if_neg hc]
        exact List.sorted_insertionSort tsle _

theorem push_maxSize (b : TelemetryBuffer) (s : TelemetrySample) :
    (b.push s).maxSize = b.maxSize := by
  simp only [TelemetryBuffer.push]
  split <;> rfl

theorem push_sorted (b : TelemetryBuffer) (s : TelemetrySample)
    (hs : TsSorted b.samples) : TsSorted (b.push s).samples := by
  have h := insertSample_sorted b.samples s hs
  simp only [TelemetryBuffer.push]
  split
  · exact h.drop
  · exact h

theorem push_length_le (b : TelemetryBuffer) (s : TelemetrySample)
    (h : b.samples.length ≤ b.maxSize) :
    (b.push s).samples.length ≤ b.maxSize := by
  have hlen := insertSample_length b.samples s
  simp only [TelemetryBuffer.push]
  by_cases hgt : b.maxSize < (insertSample b.samples s).length
  · rw [if_pos hgt]
    simp only [List.length_drop, hlen]
    omega
  · rw [if_neg hgt]
    exact le_of_not_lt hgt

theorem pushAll_cons (b : TelemetryBuffer) (s : TelemetrySample)
    (ss : List TelemetrySample) :
    pushAll b (s :: ss) = pushAll (b.push s) ss := rfl

theorem pushAll_maxSize (b : TelemetryBuffer) (ss : List TelemetrySample) :
    (pushAll b ss).maxSize = b.maxSize := by
  induction ss generalizing b with
  | nil => rfl
  | cons s t ih => rw [pushAll_cons, ih, push_maxSize]

theorem pushAll_sorted_length (b : TelemetryBuffer) (ss : List TelemetrySample)
    (h1 : TsSorted b.samples) (h2 : b.samples.length ≤ b.maxSize) :
    TsSorted (pushAll b ss).samples
      ∧ (pushAll b ss).samples.length ≤ b.maxSize := by
  induction ss generalizing b with
  | nil => exact ⟨h1, h2⟩
  | cons s t ih =>
      rw [pushAll_cons]
      have h3 := push_sorted b s h1
      have h4 := push_length_le b s h2
      have h5 := ih (b.push s) h3 (by rw [push_maxSize]; exact h4)
      rw [push_maxSize] at h5
      exact h5

theorem sorted_head_strictmin (l rest2 : List TelemetrySample) (m : TelemetrySample)
    (hsort : TsSorted l) (hperm : l.Perm (m :: rest2))
    (hstrict : ∀ x ∈ rest2, m.timestampMs < x.timestampMs) :
    m ∉ l.drop 1 := by
  have hmem : m ∈ l := hperm.mem_iff.mpr (List.mem_cons_self _ _)
  cases l with
  | nil => cases hmem
  | cons hd t =>
      have hmr2 : m ∉ rest2 := fun hx => lt_irrefl _ (hstrict m hx)
      have hhd : hd = m := by
        rcases List.mem_cons.mp hmem with he | hmt
        · exact he.symm
        · have h1 : tsle hd m := List.rel_of_pairwise_cons hsort hmt
          have h2 : hd ∈ m :: rest2 := hperm.mem_iff.mp (List.mem_cons_self _ _)
          rcases List.mem_cons.mp h2 with he | h3
          · exact he
          · exact absurd h1 (not_le.mpr (hstrict hd h3))
      subst hhd
      have hc : List.count hd (hd :: t) = 1 := by
        rw [hperm.count_eq, List.count_cons_self,
          List.count_eq_zero_of_not_mem hmr2]
      rw [List.count_cons_self] at hc
      have hz : List.count hd t = 0 := by omega
      have hnot : hd ∉ t := List.count_eq_zero.mp hz
      simpa using hnot

theorem push_evict (b : TelemetryBuffer) (s m : TelemetrySample)
    (rest : List TelemetrySample)
    (hsamp : b.samples = m :: rest) (hfull : b.samples.length = b.maxSize)
    (hmin : ∀ x ∈ rest, m.timestampMs < x.timestampMs)
    (hms : m.timestampMs < s.timestampMs) :
    m ∉ (b.push s).samples ∧ (b.push s).samples.length = b.maxSize := by
  have hlen1 : (insertSample b.samples s).length = b.maxSize + 1 := by
    rw [insertSample_length, hfull]
  have hgt : b.maxSize < (insertSample b.samples s).length := by
    rw [hlen1]; exact Nat.lt_succ_self _
  have hpush : (b.push s).samples = (insertSample b.samples s).drop 1 := by
    simp only [TelemetryBuffer.push]
    rw [if_pos hgt]
  have hstrict : ∀ x ∈ rest ++ [s], m.timestampMs < x.timestampMs := by
    intro x hx
    rcases List.mem_append.mp hx with hx1 | hx2
    · exact hmin x hx1
    · rcases List.mem_singleton.mp hx2 with rfl
      exact hms
  refine ⟨?_, by rw [hpush, List.length_drop, hlen1]; omega⟩
  rw [hpush, hsamp]
  rcases insertSample_cases (m :: rest) s with hcase | hcase <;> rw [hcase]
  · have hd1 : ((m :: rest) ++ [s]).drop 1 = rest ++ [s] := rfl
    rw [hd1]
    intro hx
    exact lt_irrefl _ (hstrict m hx)
  · refine sorted_head_strictmin _ (rest ++ [s]) m
      (List.sorted_insertionSort tsle _) ?_ hstrict
    simpa using List.perm_insertionSort tsle ((m :: rest) ++ [s])

/-! ## Claims -/

section ClaimEvaluation

attribute [local semireducible] Rat.add Rat.mul Rat.inv Rat.sub

/-- Claim C1 (corrected): immediately after `clearRankings()` the compositor
holds zero ranking cards, but the pending animation tasks are left in place:
the source never purges `this.animations`, so tasks referencing removed
cards remain and keep being applied to the detached meshes on later
advances. -/
theorem C1_amended (s : OverlayState) :
    (clearRankings s).rankings = []
      ∧ (clearRankings s).animations = s.animations :=
  ⟨rfl, rfl⟩

/-- Counterexample for claim C1 as stated: after showing one card under the
fade reveal and clearing it mid-animation, the task referencing the removed
card is still pending, and the advance at 500 ms still writes the eased
opacity 7/8 onto the detached mesh instead of dropping the task. -/
theorem C1_counterexample :
    c1State.rankings = []
      ∧ c1State.animations = [fadeTask1]
      ∧ ((update c1State 500).heap[0]?).map Mesh.opacity = some (7/8)
      ∧ (update c1State 500).animations = [fadeTask1] := by
  decide

/-- Claim C3 (corrected): same-kind tasks on one node are not deduplicated,
but `update` iterates the task array backwards, so on each advance the
tasks are applied in reverse insertion order and the earlier-inserted
task's write determines the node's final property value for that frame. -/
theorem C3_amended (heap : List Mesh) (a b : AnimTask) (now : ℚ) (m : Mesh)
    (hid : b.meshId = a.meshId) (hkind : b.type = a.type)
    (hm : heap[a.meshId]? = some m) :
    (updateAnims heap [a, b] now).1[a.meshId]?
        = some (applyTask (applyTask m b (easedOf (progressOf b now))) a
            (easedOf (progressOf a now)))
      ∧ (a.type = "fade" →
          (applyTask (applyTask m b (easedOf (progressOf b now))) a
              (easedOf (progressOf a now))).opacity
            = a.startProp + (a.endProp - a.startProp) * easedOf (progressOf a now))
      ∧ (a.type = "slide" →
          (applyTask (applyTask m b (easedOf (progressOf b now))) a
              (easedOf (progressOf a now))).posY
            = a.startProp + (a.endProp - a.startProp) * easedOf (progressOf a now))
      ∧ (a.type = "scale" →
          (applyTask (applyTask m b (easedOf (progressOf b now))) a
              (easedOf (progressOf a now))).scaleX
            = a.startProp + (a.endProp - a.startProp) * easedOf (progressOf a now)) := by
  refine ⟨?_, ?_, ?_, ?_⟩
  · have h1 : (updateAnims heap [a, b] now).1
        = modifyAt
            (modifyAt heap b.meshId
              (fun m2 => applyTask m2 b (easedOf (progressOf b now))))
            a.meshId
            (fun m2 => applyTask m2 a (easedOf (progressOf a now))) := by
      rw [updateAnims_fst_cons, updateAnims_fst_cons]
      rfl
    rw [h1, modifyAt_getElem_self, hid, modifyAt_getElem_self, hm]
    rfl
  · intro htype
    simp [applyTask, htype, hkind]
  · intro htype
    simp [applyTask, htype, hkind]
  · intro htype
    simp [applyTask, htype, hkind]

/-- Counterexample for claim C3 as stated: two fade tasks on the same node,
the earlier ending at opacity 1 and the later at 1/2, both complete at
1000 ms; the node ends at opacity 1, the earlier-inserted task's end value,
so the later-inserted write does not win. -/
theorem C3_counterexample :
    ((updateAnims [mesh0] [fadeTask1, fadeTask2] 1000).1[0]?).map Mesh.opacity
        = some 1
      ∧ fadeTask2.endProp = 1/2
      ∧ (some (1 : ℚ) = some (1/2 : ℚ) → False) := by
  decide

/-- Witness for C3: both hypotheses hold for the two concrete fade tasks on
mesh 0, and the final opacity is the earlier task's interpolated value. -/
theorem C3_witness :
    (updateAnims [mesh0] [fadeTask1, fadeTask2] 1000).1[0]?
        = some (applyTask (applyTask mesh0 fadeTask2 (easedOf (progressOf fadeTask2 1000)))
            fadeTask1 (easedOf (progressOf fadeTask1 1000))) :=
  (C3_amended [mesh0] fadeTask1 fadeTask2 1000 mesh0 (by decide) (by decide) (by decide)).1

/-- Claim C4 (code bug): with orientation upright, a card created by
`showRank` gets plane rotation (0, 0, 0) from `createLabel`, while
`setCardOrientation` had just set every existing card's rotation to
(0, -π/2, 0); the two simultaneously placed cards do not share one
orientation, violating the stated invariant.  Angles are in units of π. -/
theorem C4_code_eval :
    c4State.cardOrientation = .upright
      ∧ c4State.rankings = [0, 1]
      ∧ (c4State.heap[0]?).map Mesh.rotY = some (-(1/2))
      ∧ (c4State.heap[1]?).map Mesh.rotY = some 0
      ∧ (some (-(1/2) : ℚ) = some (0 : ℚ) → False) := by
  decide

/-- Claim C6 (confirmed): a `showRank` call whose `laneIndex` is negative or
at least `laneCount` is a silent no-op — the entire compositor state is
returned unchanged, so no card, no task and no other mutation happens. -/
theorem C6_thm (s : OverlayState) (now : ℚ) (laneIndex rank : ℤ)
    (athleteName time : String) (image : Option String)
    (h : laneIndex < 0 ∨ s.laneCount ≤ laneIndex) :
    showRank s now laneIndex rank athleteName time image = s := by
  unfold showRank
  rw [if_pos h]

/-- Witness for C6: `showRank` with lane 99 on the default 8-lane track
returns the state unchanged. -/
theorem C6_witness :
    ((99 : ℤ) < 0 ∨ initialState.laneCount ≤ 99)
      ∧ showRank initialState 0 99 1 "Bolt" "9.58" none = initialState :=
  ⟨by decide, C6_thm initialState 0 99 1 "Bolt" "9.58" none (by decide)⟩

/-- Claim C5 (confirmed): for every task created at or before the advance
time (the render clock is monotone, so this holds on every frame) with
positive duration, the computed progress equals the spec's
`clamp((now − startTime)/duration, 0, 1)`; the advance writes the
ease-out-cubic interpolated value onto the property selected by the task
kind, removes the task exactly when `progress ≥ 1` — after that final
write — and the value written at completion is exactly the end value. -/
theorem C5_thm (heap : List Mesh) (a : AnimTask) (now : ℚ) (m : Mesh)
    (hstart : a.startTime ≤ now) (hdur : 0 < a.duration)
    (hm : heap[a.meshId]? = some m) :
    progressOf a now = max 0 (min ((now - a.startTime) / a.duration) 1)
      ∧ (updateAnims heap [a] now).1[a.meshId]?
          = some (applyTask m a (easedOf (progressOf a now)))
      ∧ (updateAnims heap [a] now).2
          = (if 1 ≤ progressOf a now then [] else [a])
      ∧ (a.type = "fade" → (applyTask m a (easedOf (progressOf a now))).opacity
          = a.startProp + (a.endProp - a.startProp) * easedOf (progressOf a now))
      ∧ (a.type = "slide" → (applyTask m a (easedOf (progressOf a now))).posY
          = a.startProp + (a.endProp - a.startProp) * easedOf (progressOf a now))
      ∧ (a.type = "scale" →
          (applyTask m a (easedOf (progressOf a now))).scaleX
              = a.startProp + (a.endProp - a.startProp) * easedOf (progressOf a now)
          ∧ (applyTask m a (easedOf (progressOf a now))).scaleY
              = a.startProp + (a.endProp - a.startProp) * easedOf (progressOf a now)
          ∧ (applyTask m a (easedOf (progressOf a now))).scaleZ
              = a.startProp + (a.endProp - a.startProp) * easedOf (progressOf a now))
      ∧ (1 ≤ progressOf a now →
          easedOf (progressOf a now) = 1
          ∧ (a.type = "fade" →
              (applyTask m a (easedOf (progressOf a now))).opacity = a.endProp)
          ∧ (a.type = "slide" →
              (applyTask m a (easedOf (progressOf a now))).posY = a.endProp)
          ∧ (a.type = "scale" →
              (applyTask m a (easedOf (progressOf a now))).scaleX = a.endProp)) := by
  have hx : 0 ≤ (now - a.startTime) / a.duration :=
    div_nonneg (by linarith) (le_of_lt hdur)
  refine ⟨?_, ?_, ?_, ?_, ?_, ?_, ?_⟩
  · exact (max_eq_right (le_min hx zero_le_one)).symm
  · have h1 : (updateAnims heap [a] now).1
        = modifyAt heap a.meshId
            (fun m2 => applyTask m2 a (easedOf (progressOf a now))) := by
      rw [updateAnims_fst_cons]
      rfl
    rw [h1, modifyAt_getElem_self, hm]
    rfl
  · rw [updateAnims_snd]
    by_cases h1 : 1 ≤ progressOf a now
    · simp [h1, List.filter_cons, not_lt.mpr h1]
    · simp [h1, List.filter_cons, lt_of_not_le h1]
  · intro htype
    simp [applyTask, htype]
  · intro htype
    simp [applyTask, htype]
  · intro htype
    simp [applyTask, htype]
  · intro h1
    have hple : progressOf a now ≤ 1 := min_le_right _ _
    have hp : progressOf a now = 1 := le_antisymm hple h1
    have heased : easedOf (progressOf a now) = 1 := by
      rw [hp]
      unfold easedOf
      norm_num
    refine ⟨heased, ?_, ?_, ?_⟩ <;> intro htype <;> rw [heased] <;>
      simp [applyTask, htype]

/-- Witness for C5: a fade task over 1000 ms advanced at 500 ms on a
one-mesh heap; the clamp identity holds and the eased write is applied. -/
theorem C5_witness :
    progressOf fadeTask1 500
        = max 0 (min ((500 - fadeTask1.startTime) / fadeTask1.duration) 1)
      ∧ (updateAnims [mesh0] [fadeTask1] 500).1[0]?
          = some (applyTask mesh0 fadeTask1 (easedOf (progressOf fadeTask1 500))) := by
  have h := C5_thm [mesh0] fadeTask1 500 mesh0 (by decide) (by decide) (by decide)
  exact ⟨h.1, h.2.1⟩

/-- Claim C7 (confirmed): a valid `showRank` under reveal mode static
places the card at its resting properties (opacity 1, scale 1, resting
y = 0.02) with no task registered; under fade/slide/scale it seeds the card
at the animation's start value (opacity 0, y = −5, scale 0 respectively)
and registers exactly one task transitioning to the resting value, with
durations 1000 ms, 800 ms and 600 ms respectively. -/
theorem C7_thm (s : OverlayState) (now : ℚ) (lane rank : ℤ) (nm tm : String)
    (img : Option String) (h0 : 0 ≤ lane) (h1 : lane < s.laneCount) :
    (s.revealEffect = .static →
        (showRank s now lane rank nm tm img).animations = s.animations
        ∧ ∃ c : Mesh,
            (showRank s now lane rank nm tm img).heap[s.heap.length]? = some c
            ∧ c.opacity = 1 ∧ c.scaleX = 1 ∧ c.scaleY = 1 ∧ c.scaleZ = 1
            ∧ c.posY = 1/50)
      ∧ (s.revealEffect = .fade →
          (showRank s now lane rank nm tm img).animations
              = s.animations ++ [⟨s.heap.length, "fade", now, 1000, 0, 1⟩]
          ∧ ∃ c : Mesh,
              (showRank s now lane rank nm tm img).heap[s.heap.length]? = some c
              ∧ c.opacity = 0 ∧ c.posY = 1/50 ∧ c.scaleX = 1)
      ∧ (s.revealEffect = .slide →
          (showRank s now lane rank nm tm img).animations
              = s.animations ++ [⟨s.heap.length, "slide", now, 800, -5, 1/50⟩]
          ∧ ∃ c : Mesh,
              (showRank s now lane rank nm tm img).heap[s.heap.length]? = some c
              ∧ c.posY = -5 ∧ c.opacity = 1)
      ∧ (s.revealEffect = .scale →
          (showRank s now lane rank nm tm img).animations
              = s.animations ++ [⟨s.heap.length, "scale", now, 600, 0, 1⟩]
          ∧ ∃ c : Mesh,
              (showRank s now lane rank nm tm img).heap[s.heap.length]? = some c
              ∧ c.scaleX = 0 ∧ c.scaleY = 0 ∧ c.scaleZ = 0 ∧ c.posY = 1/50) := by
  have hguard : ¬(lane < 0 ∨ s.laneCount ≤ lane) := by
    rintro (hc | hc)
    · exact absurd h0 (not_le.mpr hc)
    · exact absurd h1 (not_lt.mpr hc)
  refine ⟨?_, ?_, ?_, ?_⟩ <;> intro heff <;> unfold showRank <;>
    rw [if_neg hguard, heff] <;> dsimp only
  · exact ⟨rfl, _, List.getElem?_concat_length _ _, rfl, rfl, rfl, rfl, rfl⟩
  · exact ⟨rfl, _, List.getElem?_concat_length _ _, rfl, rfl, rfl⟩
  · exact ⟨rfl, _, List.getElem?_concat_length _ _, rfl, rfl⟩
  · exact ⟨rfl, _, List.getElem?_concat_length _ _, rfl, rfl, rfl, rfl⟩

/-- Witness for C7: under fade reveal, `showRank` in lane 4 registers
exactly one fade task (0 → 1 over 1000 ms) and seeds the card invisible. -/
theorem C7_witness :
    (showRank c7State 0 4 1 "Bolt" "9.58" none).animations
        = c7State.animations ++ [⟨c7State.heap.length, "fade", 0, 1000, 0, 1⟩]
      ∧ ∃ c : Mesh,
          (showRank c7State 0 4 1 "Bolt" "9.58" none).heap[c7State.heap.length]?
              = some c
          ∧ c.opacity = 0 ∧ c.posY = 1/50 ∧ c.scaleX = 1 :=
  (C7_thm c7State 0 4 1 "Bolt" "9.58" none (by decide) (by decide)).2.1 rfl

/-- The heap action of `configureTrack`, spelled as the two successive
`forEach` passes of the source (geometry resize, then reposition). -/
theorem configureTrack_heap (s : OverlayState) (count : ℤ) (width length : ℚ) :
    (configureTrack s count width length).heap
      = applyAll (fun m =>
          { m with
            posX := 0 + s.cardOffsetX
            posY := 1/50
            posZ := (m.laneIndex : ℚ) * width
              - (count : ℚ) * width / 2 + width / 2 })
          (applyAll (fun m =>
              { m with geomW := max (1/2) (width - 3/10) * 4
                       geomH := max (1/2) (width - 3/10) }) s.heap s.rankings)
          s.rankings := rfl

/-- Claim C2 (confirmed): after `configureTrack(count, width, length)`,
every card still in the rankings group sits at
`z = laneIndex*width - count*width/2 + width/2` computed from the new
configuration, at `x = cardOffsetX` (the global offset) and `y = 0.02`,
and its plane geometry is `(4*laneSpan) × laneSpan` with
`laneSpan = max(0.5, width - 0.3)` — nothing derived from the previous
configuration survives. -/
theorem C2_thm (s : OverlayState) (count : ℤ) (width length : ℚ) (id : ℕ)
    (m : Mesh) (hid : id ∈ s.rankings)
    (hm : (configureTrack s count width length).heap[id]? = some m) :
    m.posZ = (m.laneIndex : ℚ) * width - (count : ℚ) * width / 2 + width / 2
      ∧ m.posX = s.cardOffsetX
      ∧ m.posY = 1/50
      ∧ m.geomH = max (1/2) (width - 3/10)
      ∧ m.geomW = max (1/2) (width - 3/10) * 4 := by
  rw [configureTrack_heap] at hm
  obtain ⟨hh, hw⟩ :=
    applyAll_getElem_pres
      (fun m2 =>
        { m2 with
          posX := 0 + s.cardOffsetX
          posY := 1/50
          posZ := (m2.laneIndex : ℚ) * width
            - (count : ℚ) * width / 2 + width / 2 })
      (fun mm => mm.geomH = max (1/2) (width - 3/10)
        ∧ mm.geomW = max (1/2) (width - 3/10) * 4)
      (fun m2 hp => hp)
      (applyAll (fun m2 =>
          { m2 with geomW := max (1/2) (width - 3/10) * 4
                    geomH := max (1/2) (width - 3/10) }) s.heap s.rankings)
      s.rankings id
      (applyAll_getElem_estab _ _ (fun m2 => ⟨rfl, rfl⟩) s.heap s.rankings id hid)
      m hm
  obtain ⟨hx, hy, hz⟩ :=
    applyAll_getElem_estab
      (fun m2 =>
        { m2 with
          posX := 0 + s.cardOffsetX
          posY := 1/50
          posZ := (m2.laneIndex : ℚ) * width
            - (count : ℚ) * width / 2 + width / 2 })
      (fun mm => mm.posX = 0 + s.cardOffsetX ∧ mm.posY = 1/50
        ∧ mm.posZ = (mm.laneIndex : ℚ) * width
            - (count : ℚ) * width / 2 + width / 2)
      (fun m2 => ⟨rfl, rfl, rfl⟩)
      (applyAll (fun m2 =>
          { m2 with geomW := max (1/2) (width - 3/10) * 4
                    geomH := max (1/2) (width - 3/10) }) s.heap s.rankings)
      s.rankings id hid m hm
  exact ⟨hz, by rw [hx]; ring, hy, hh, hw⟩

/-- Witness for C2: the lane-3 card of `c2Base` after
`configureTrack 6 2 50` has the freshly derived position and size. -/
theorem C2_witness :
    card2.posZ = (card2.laneIndex : ℚ) * 2 - ((6 : ℤ) : ℚ) * 2 / 2 + 2 / 2
      ∧ card2.posX = c2Base.cardOffsetX
      ∧ card2.posY = 1/50
      ∧ card2.geomH = max (1/2) (2 - 3/10)
      ∧ card2.geomW = max (1/2) (2 - 3/10) * 4 :=
  C2_thm c2Base 6 2 50 0 card2 (by decide) (by decide)

/-- A valid `showRank` appends one heap mesh carrying the requested lane
index, appends its heap position to the rankings list and keeps the lane
count. -/
theorem showRank_valid (s : OverlayState) (now : ℚ) (lane rank : ℤ)
    (nm tm : String) (img : Option String)
    (h : ¬(lane < 0 ∨ s.laneCount ≤ lane)) :
    (showRank s now lane rank nm tm img).rankings = s.rankings ++ [s.heap.length]
      ∧ (∃ c : Mesh, (showRank s now lane rank nm tm img).heap = s.heap ++ [c]
          ∧ c.laneIndex = lane)
      ∧ (showRank s now lane rank nm tm img).laneCount = s.laneCount := by
  unfold showRank
  rw [if_neg h]
  refine ⟨rfl, ?_, rfl⟩
  cases s.revealEffect <;> exact ⟨_, rfl, rfl⟩

/-- On a well-formed state (every ranking id points into the heap), a valid
`showRank` appends exactly one card to the card list. -/
theorem cardsOf_showRank (s : OverlayState) (now : ℚ) (lane rank : ℤ)
    (nm tm : String) (img : Option String)
    (hwf : ∀ id ∈ s.rankings, id < s.heap.length)
    (h : ¬(lane < 0 ∨ s.laneCount ≤ lane)) :
    ∃ c : Mesh, cardsOf (showRank s now lane rank nm tm img) = cardsOf s ++ [c]
      ∧ c.laneIndex = lane := by
  obtain ⟨hr, ⟨c, hh, hc⟩, _⟩ := showRank_valid s now lane rank nm tm img h
  refine ⟨c, ?_, hc⟩
  unfold cardsOf
  rw [hr, hh, List.filterMap_append]
  congr 1
  · exact List.filterMap_congr fun id hid =>
      List.getElem?_append_left (hwf id hid)
  · simp [List.getElem?_concat_length]

/-- Transfer of the lane invariant along an operation that keeps the lane
count and the rankings ids and only rewrites heap entries pointwise. -/
theorem laneInv_of_pointwise (s s2 : OverlayState)
    (hc : s2.laneCount = s.laneCount) (hr : s2.rankings = s.rankings)
    (hp : ∀ id ∈ s.rankings, ∀ m, s2.heap[id]? = some m →
      0 ≤ m.laneIndex ∧ m.laneIndex < s.laneCount) :
    laneInv s2 := by
  intro m hm
  unfold cardsOf at hm
  rw [hr] at hm
  rcases List.mem_filterMap.mp hm with ⟨id, hid, hsome⟩
  rw [hc]
  exact hp id hid m hsome

/-- The lane invariant read pointwise through the rankings ids. -/
theorem laneInv_pointwise (s : OverlayState) (h : laneInv s) :
    ∀ id ∈ s.rankings, ∀ m, s.heap[id]? = some m →
      0 ≤ m.laneIndex ∧ m.laneIndex < s.laneCount :=
  fun id hid m hm => h m (List.mem_filterMap.mpr ⟨id, hid, hm⟩)

/-- Claim C8 (corrected): starting from a state where every placed card's
lane index lies in `[0, laneCount)`, the invariant is preserved by
`showRank` (it validates at creation), `setCardOffset`,
`setCardOrientation` and `clearRankings`; `configureTrack` keeps every
card's lane index unchanged, so the invariant survives it exactly when the
new lane count exceeds every existing card's lane index — a
`configureTrack` that shrinks `laneCount` below an existing index breaks
it (see the counterexample). -/
theorem C8_thm (s : OverlayState) (now : ℚ) (lane rank : ℤ) (nm tm : String)
    (img : Option String) (x width length : ℚ) (count : ℤ) (o : Orientation)
    (hwf : ∀ id ∈ s.rankings, id < s.heap.length) (hinv : laneInv s) :
    laneInv (showRank s now lane rank nm tm img)
      ∧ laneInv (setCardOffset s x)
      ∧ laneInv (setCardOrientation s o)
      ∧ laneInv (clearRankings s)
      ∧ ((∀ m ∈ cardsOf s, m.laneIndex < count) →
          laneInv (configureTrack s count width length)) := by
  refine ⟨?_, ?_, ?_, ?_, ?_⟩
  · by_cases hg : lane < 0 ∨ s.laneCount ≤ lane
    · have hno : showRank s now lane rank nm tm img = s := by
        unfold showRank
        rw [if_pos hg]
      rw [hno]
      exact hinv
    · obtain ⟨c, hcards, hlane⟩ := cardsOf_showRank s now lane rank nm tm img hwf hg
      obtain ⟨_, _, hcount⟩ := showRank_valid s now lane rank nm tm img hg
      intro m hm
      rw [hcards] at hm
      rcases List.mem_append.mp hm with hm1 | hm2
      · have h3 := hinv m hm1
        rw [hcount]
        exact h3
      · rcases List.mem_singleton.mp hm2 with rfl
        rw [hlane, hcount]
        rcases not_or.mp hg with ⟨hg1, hg2⟩
        exact ⟨not_lt.mp hg1, not_le.mp hg2⟩
  · refine laneInv_of_pointwise s _ rfl rfl ?_
    intro id hid
    exact applyAll_getElem_pres
      (fun m2 =>
        { m2 with
          posX := 0 + x
          posY := 1/50
          posZ := (m2.laneIndex : ℚ) * s.laneWidth
            - (s.laneCount : ℚ) * s.laneWidth / 2 + s.laneWidth / 2 })
      (fun mm => 0 ≤ mm.laneIndex ∧ mm.laneIndex < s.laneCount)
      (fun m2 hp => hp) s.heap s.rankings id
      (laneInv_pointwise s hinv id hid)
  · refine laneInv_of_pointwise s _ rfl rfl ?_
    intro id hid
    exact applyAll_getElem_pres
      (fun m2 =>
        match o with
        | .flat => { m2 with rotX := -(1/2), rotY := 0 }
        | .upright => { m2 with rotX := 0, rotY := -(1/2) })
      (fun mm => 0 ≤ mm.laneIndex ∧ mm.laneIndex < s.laneCount)
      (fun m2 hp => by cases o <;> exact hp) s.heap s.rankings id
      (laneInv_pointwise s hinv id hid)
  · intro m hm
    exact absurd hm (List.not_mem_nil m)
  · intro hAll m hm
    unfold cardsOf at hm
    rcases List.mem_filterMap.mp hm with ⟨id, hid, hsome⟩
    rw [configureTrack_heap] at hsome
    have hbase : ∀ mm : Mesh, s.heap[id]? = some mm →
        0 ≤ mm.laneIndex ∧ mm.laneIndex < count := by
      intro mm hmm
      have hmem : mm ∈ cardsOf s := List.mem_filterMap.mpr ⟨id, hid, hmm⟩
      exact ⟨(hinv mm hmem).1, hAll mm hmem⟩
    have hstep1 := applyAll_getElem_pres
      (fun m2 =>
        { m2 with geomW := max (1/2) (width - 3/10) * 4
                  geomH := max (1/2) (width - 3/10) })
      (fun mm => 0 ≤ mm.laneIndex ∧ mm.laneIndex < count)
      (fun m2 hp => hp) s.heap s.rankings id hbase
    have hstep2 := applyAll_getElem_pres
      (fun m2 =>
        { m2 with
          posX := 0 + s.cardOffsetX
          posY := 1/50
          posZ := (m2.laneIndex : ℚ) * width
            - (count : ℚ) * width / 2 + width / 2 })
      (fun mm => 0 ≤ mm.laneIndex ∧ mm.laneIndex < count)
      (fun m2 hp => hp) _ s.rankings id hstep1
    exact hstep2 m hsome

/-- Witness for C8: all five operations applied to the pristine overlay
state preserve the lane-index invariant. -/
theorem C8_witness :
    laneInv (showRank initialState 0 4 1 "Bolt" "9.58" none)
      ∧ laneInv (setCardOffset initialState 3)
      ∧ laneInv (setCardOrientation initialState .upright)
      ∧ laneInv (clearRankings initialState)
      ∧ laneInv (configureTrack initialState 6 2 50) := by
  have h := C8_thm initialState 0 4 1 "Bolt" "9.58" none 3 2 50 6 .upright
    (by decide) (by decide)
  exact ⟨h.1, h.2.1, h.2.2.1, h.2.2.2.1, h.2.2.2.2 (by decide)⟩

/-- Counterexample for claim C8 as stated: a card in lane 5 of an 8-lane
track survives `configureTrack 2 1 50` unchanged, so a stored card's lane
index (5) falls outside `[0, laneCount)` of the current configuration
(laneCount 2) right after a public operation. -/
theorem C8_counterexample :
    ¬ laneInv c8State
      ∧ (cardsOf c8State).map Mesh.laneIndex = [5]
      ∧ c8State.laneCount = 2 := by
  decide

/-- Claim C10 (confirmed): every in-range `showRank` appends exactly one
card (there is no per-lane deduplication or replacement — the count of
cards in the requested lane grows by one, so repeated calls accumulate
co-located cards), every other public operation and the frame tick keep
the rankings list unchanged, and only `clearRankings` empties it. -/
theorem C10_thm (s : OverlayState) (now now2 : ℚ) (lane rank : ℤ)
    (nm tm : String) (img : Option String) (count : ℤ) (width length x : ℚ)
    (o : Orientation) (st : CardStyle) (eff : RevealEffect)
    (hwf : ∀ id ∈ s.rankings, id < s.heap.length)
    (h0 : 0 ≤ lane) (h1 : lane < s.laneCount) :
    (showRank s now lane rank nm tm img).rankings.length = s.rankings.length + 1
      ∧ (∃ c : Mesh, cardsOf (showRank s now lane rank nm tm img)
          = cardsOf s ++ [c] ∧ c.laneIndex = lane)
      ∧ (cardsOf (showRank s now lane rank nm tm img)).countP
            (fun m => m.laneIndex == lane)
          = (cardsOf s).countP (fun m => m.laneIndex == lane) + 1
      ∧ (clearRankings s).rankings = []
      ∧ (configureTrack s count width length).rankings = s.rankings
      ∧ (setCardOffset s x).rankings = s.rankings
      ∧ (setCardOrientation s o).rankings = s.rankings
      ∧ (setCardStyle s st).rankings = s.rankings
      ∧ (setRevealEffect s eff).rankings = s.rankings
      ∧ (update s now2).rankings = s.rankings := by
  have hguard : ¬(lane < 0 ∨ s.laneCount ≤ lane) := by
    rintro (hc | hc)
    · exact absurd h0 (not_le.mpr hc)
    · exact absurd h1 (not_lt.mpr hc)
  obtain ⟨hr, _, _⟩ := showRank_valid s now lane rank nm tm img hguard
  obtain ⟨c, hcards, hlane⟩ := cardsOf_showRank s now lane rank nm tm img hwf hguard
  refine ⟨?_, ⟨c, hcards, hlane⟩, ?_, rfl, rfl, rfl, rfl, rfl, rfl, rfl⟩
  · rw [hr]
    simp
  · rw [hcards, List.countP_append, List.countP_cons]
    simp [hlane]

/-- Witness for C10: on the pristine state, a lane-4 `showRank` appends one
card with lane index 4. -/
theorem C10_witness :
    (showRank initialState 0 4 1 "Bolt" "9.58" none).rankings.length
        = initialState.rankings.length + 1
      ∧ ∃ c : Mesh, cardsOf (showRank initialState 0 4 1 "Bolt" "9.58" none)
          = cardsOf initialState ++ [c] ∧ c.laneIndex = 4 := by
  have h := C10_thm initialState 0 0 4 1 "Bolt" "9.58" none 6 2 50 3
    .flat .classic .static (by decide) (by decide) (by decide)
  exact ⟨h.1, h.2.1⟩

/-- Claim C9 (corrected): after any sequence of pushes, the buffer is
non-decreasing by timestamp and its length never exceeds `maxSize`; when a
push overflows, the evicted element is the lowest-timestamped one of the
buffer including the inserted sample, so the pre-push minimum is the one
absent afterwards whenever the inserted sample's timestamp is strictly
larger than the (unique) pre-push minimum — but not when the overflowing
insertion is itself below the minimum (see the counterexample). -/
theorem C9_thm (maxSize : ℕ) (ss : List TelemetrySample)
    (s m : TelemetrySample) (rest : List TelemetrySample) :
    TsSorted (pushAll (emptyBuffer maxSize) ss).samples
      ∧ (pushAll (emptyBuffer maxSize) ss).samples.length ≤ maxSize
      ∧ ((pushAll (emptyBuffer maxSize) ss).samples = m :: rest →
          (pushAll (emptyBuffer maxSize) ss).samples.length = maxSize →
          (∀ x ∈ rest, m.timestampMs < x.timestampMs) →
          m.timestampMs < s.timestampMs →
          m ∉ ((pushAll (emptyBuffer maxSize) ss).push s).samples
            ∧ ((pushAll (emptyBuffer maxSize) ss).push s).samples.length
                = maxSize) := by
  have hms : (pushAll (emptyBuffer maxSize) ss).maxSize = maxSize :=
    pushAll_maxSize _ _
  have h := pushAll_sorted_length (emptyBuffer maxSize) ss
    List.Pairwise.nil (Nat.zero_le _)
  refine ⟨h.1, h.2, ?_⟩
  intro hsamp hfull hmin hlt
  have he := push_evict (pushAll (emptyBuffer maxSize) ss) s m rest hsamp
    (by rw [hms]; exact hfull) hmin hlt
  rw [hms] at he
  exact he

/-- Witness for C9: a full 2-slot buffer `[ts 5, ts 6]` receiving ts 7
stays sorted and bounded and evicts the sample with timestamp 5. -/
theorem C9_witness :
    TsSorted (pushAll (emptyBuffer 2) [sampleA, sampleB]).samples
      ∧ (pushAll (emptyBuffer 2) [sampleA, sampleB]).samples.length ≤ 2
      ∧ (sampleA ∉ ((pushAll (emptyBuffer 2) [sampleA, sampleB]).push sampleD).samples
          ∧ ((pushAll (emptyBuffer 2) [sampleA, sampleB]).push sampleD).samples.length
              = 2) := by
  have h := C9_thm 2 [sampleA, sampleB] sampleD sampleA [sampleB]
  exact ⟨h.1, h.2.1, h.2.2 (by decide) (by decide) (by decide) (by decide)⟩

/-- Counterexample for claim C9 as stated: the full 2-slot buffer
`[ts 5, ts 6]` receives the out-of-order sample ts 1; the insertion
overflows, but the evicted sample is the new one (ts 1) — the sample with
the smallest timestamp before the push (ts 5) is still present
afterwards. -/
theorem C9_counterexample :
    (pushAll (emptyBuffer 2) [sampleA, sampleB]).samples.length = 2
      ∧ sampleA.timestampMs < sampleB.timestampMs
      ∧ sampleC.timestampMs < sampleA.timestampMs
      ∧ ((pushAll (emptyBuffer 2) [sampleA, sampleB]).push sampleC).samples
          = [sampleA, sampleB]
      ∧ sampleA ∈ ((pushAll (emptyBuffer 2) [sampleA, sampleB]).push sampleC).samples := by
  decide

end ClaimEvaluation

end RunLineJS
